import Mathlib

/-!
Verification of the timekpr-ui-backend reconciliation engine against its
natural-language specification.  The Rust sources are shallowly embedded:
pure functions become Lean functions, the scheduler's stateful steps become
explicit state-passing functions, machine integers become `Int`/`Nat` with
explicit wrapping where it matters, and fallible code returns `Option`
(`none` models a Rust panic or error return).
-/

namespace TimekprUI

/-- Typed values produced by the agent-output parser
(`serde_json::Value` restricted to the variants the parser builds). -/
inductive JVal where
  | num (n : Int)
  | str (s : String)
  | bool (b : Bool)
  | arr (xs : List JVal)

/-- `str::split` on a non-empty separator, working over character lists
(leftmost, non-overlapping matches; adjacent separators yield empty
pieces). -/
def splitSepGo (sep : List Char) : Nat → List Char → List Char → List (List Char)
  | _, [], acc => [acc.reverse]
  | 0, l, acc => [acc.reverse ++ l]
  | Nat.succ fuel, c :: rest, acc =>
    if sep ≠ [] ∧ sep.isPrefixOf (c :: rest) then
      acc.reverse :: splitSepGo sep fuel ((c :: rest).drop sep.length) []
    else
      splitSepGo sep fuel rest (c :: acc)

/-- Rust's `str::split(sep)` for a non-empty separator string.  The fuel
argument of the worker equals the input length, which one whole pass can
never exhaust (every step consumes at least one character). -/
def rustSplit (sep s : String) : List String :=
  (splitSepGo sep.data s.data.length s.data []).map String.mk

/-- Rust's `str::trim()`: strip leading and trailing whitespace. -/
def rustTrim (s : String) : String :=
  String.mk
    (((s.data.dropWhile Char.isWhitespace).reverse.dropWhile
      Char.isWhitespace).reverse)

/-- Numeric value of an all-ASCII-digit string, as accumulated by a decimal
parse (`acc * 10 + digit`). -/
def digitsVal (s : String) : Nat :=
  s.data.foldl (fun a c => a * 10 + (c.toNat - 48)) 0

/-- Largest value of Rust's `i64`. -/
def i64Max : Nat := 9223372036854775807

/-- Rust's `str::parse::<i64>()` restricted to the call sites in
`parse_timekpr_output`, which only invoke it on all-ASCII-digit strings:
it fails (`Err`) exactly on the empty string and on overflow past `i64::MAX`.
`none` models `Err`. -/
def parseI64 (s : String) : Option Int :=
  if s.data.isEmpty then none
  else if s.data.all (fun c => c.isDigit) then
    if digitsVal s ≤ i64Max then some (Int.ofNat (digitsVal s)) else none
  else none

/-- Re-typing of one `;`-separated list item in `parse_timekpr_output`:
all-digit items are parsed as integers (the `unwrap` panics when the parse
fails, modelled by `none`), everything else stays a string. -/
def retypeItem (item : String) : Option JVal :=
  if item.data.all (fun c => c.isDigit) then (parseI64 item).map JVal.num
  else some (JVal.str item)

/-- ASCII lowercasing of a string (`eq_ignore_ascii_case` support). -/
def strToLower (s : String) : String :=
  String.mk (s.data.map Char.toLower)

/-- Re-typing of one trimmed, non-empty `value` in `parse_timekpr_output`:
all-digit values become integers, values containing `;` become lists of
individually re-typed items, `true`/`false` (ASCII case-insensitive) become
booleans, everything else stays a string.  `none` models the `unwrap` panic
on a failed integer parse. -/
def retypeValue (value : String) : Option JVal :=
  if value.data.all (fun c => c.isDigit) then (parseI64 value).map JVal.num
  else if value.data.contains ';' then
    ((rustSplit ";" value).mapM retypeItem).map JVal.arr
  else if strToLower value = "true" then some (JVal.bool true)
  else if strToLower value = "false" then some (JVal.bool false)
  else some (JVal.str value)

/-- Rust's `str::split_once(sep)`: split at the first occurrence of `sep`. -/
def splitOnce (sep s : String) : Option (String × String) :=
  match rustSplit sep s with
  | [] => none
  | [_] => none
  | k :: rest => some (k, String.mk (List.intercalate sep.data (rest.map String.data)))

/-- Rust's `str::lines()`: split on newline, dropping an optional final line
terminator, and stripping a trailing carriage return from each line. -/
def rustLines (s : String) : List String :=
  let ls := rustSplit "\n" s
  let ls := if ls.getLast? = some "" then ls.dropLast else ls
  ls.map (fun l =>
    if l.data.getLast? = some '\r' then String.mk l.data.dropLast else l)

/-- `HashMap::insert` on the association-list model of the parser's map:
replaces any previous binding of the key. -/
def insertKV (m : List (String × JVal)) (k : String) (v : JVal) :
    List (String × JVal) :=
  (m.filter (fun p => p.1 ≠ k)) ++ [(k, v)]

/-- One iteration of the line loop in `SSHClient::parse_timekpr_output`:
lines without `": "` are skipped, keys and values are trimmed, empty values
are skipped, and the re-typed value is inserted into the map.  `none` models
a panic inside `retypeValue`. -/
def parseLineStep (m : List (String × JVal)) (line : String) :
    Option (List (String × JVal)) :=
  match splitOnce ": " line with
  | none => some m
  | some kv =>
    let key := rustTrim kv.1
    let value := rustTrim kv.2
    if value.data.isEmpty then some m
    else match retypeValue value with
      | none => none
      | some jv => some (insertKV m key jv)

/-- `SSHClient::parse_timekpr_output` (src/src/services/ssh.rs): folds the
line loop over the output's lines.  `none` models a panic. -/
def parse_timekpr_output (output : String) : Option (List (String × JVal)) :=
  (rustLines output).foldlM parseLineStep []

/-- `UserDailyTimeInterval` (src/src/database/models.rs).  Timestamps are
modelled as integers. -/
structure UserDailyTimeInterval where
  id : Int
  user_id : Int
  day_of_week : Int
  start_hour : Int
  start_minute : Int
  end_hour : Int
  end_minute : Int
  is_enabled : Bool
  is_synced : Bool
  last_synced : Option Int
  last_modified : Int

/-- Rust's `as i32` cast of an `i64`, and the wrap of every release-mode
`i32` arithmetic result: two's-complement wrapping into
`[-2^31, 2^31)`. -/
def wrap32 (n : Int) : Int := (n + 2147483648) % 4294967296 - 2147483648

/-- `UserDailyTimeInterval::is_valid_interval`: start offset strictly before
end offset, both inside `[0, 1440)` minutes-since-midnight.  The offsets
`start_hour * 60 + start_minute` are `i32` computations, so each operation
wraps on overflow (release-mode semantics; debug builds panic instead). -/
def is_valid_interval (iv : UserDailyTimeInterval) : Bool :=
  let start_minutes := wrap32 (wrap32 (iv.start_hour * 60) + iv.start_minute)
  let end_minutes := wrap32 (wrap32 (iv.end_hour * 60) + iv.end_minute)
  start_minutes < end_minutes &&
  start_minutes ≥ 0 && start_minutes < 1440 &&
  end_minutes ≥ 0 && end_minutes < 1440

/-- The Rust loop `for h in a..b { result.push(h.to_string()) }`, pushing one
decimal token per integer in `[a, b)`. -/
def pushHourLoop (a b : Int) : List String :=
  if a < b then toString a :: pushHourLoop (a + 1) b else []
termination_by (b - a).toNat
decreasing_by
  omega

/-- `UserDailyTimeInterval::to_timekpr_format` (src/src/database/models.rs):
`None` for a disabled window, otherwise the token list in push order. -/
def to_timekpr_format (iv : UserDailyTimeInterval) : Option (List String) :=
  if !iv.is_enabled then none
  else some (
    if iv.start_minute = 0 ∧ iv.end_minute = 0 then
      pushHourLoop iv.start_hour iv.end_hour
    else if iv.start_hour = iv.end_hour then
      [toString iv.start_hour ++ "[" ++ toString iv.start_minute ++ "-" ++
        toString iv.end_minute ++ "]"]
    else
      (if iv.start_minute = 0 then [toString iv.start_hour]
       else [toString iv.start_hour ++ "[" ++ toString iv.start_minute ++ "-59]"]) ++
      pushHourLoop (iv.start_hour + 1) iv.end_hour ++
      (if iv.end_minute > 0 then
        [toString iv.end_hour ++ "[0-" ++ toString iv.end_minute ++ "]"]
       else []))

/-- Modelled from the spec's words for the window-to-hour-spec encoding
(claim side): one token per whole hour of `[start_hour, end_hour)` when both
minute offsets are zero; a single bracketed token when the hours coincide;
otherwise a leading partial-hour token, one token per whole hour strictly
between the two, and a trailing token only when `end_minute > 0`. -/
def specHourTokens (iv : UserDailyTimeInterval) : List String :=
  if iv.start_minute = 0 ∧ iv.end_minute = 0 then
    ((List.range (iv.end_hour - iv.start_hour).toNat).map
      (fun (k : Nat) => toString (iv.start_hour + (k : Int))))
  else if iv.start_hour = iv.end_hour then
    [toString iv.start_hour ++ "[" ++ toString iv.start_minute ++ "-" ++
      toString iv.end_minute ++ "]"]
  else
    (if iv.start_minute = 0 then [toString iv.start_hour]
     else [toString iv.start_hour ++ "[" ++ toString iv.start_minute ++ "-59]"]) ++
    ((List.range (iv.end_hour - (iv.start_hour + 1)).toNat).map
      (fun (k : Nat) => toString (iv.start_hour + 1 + (k : Int)))) ++
    (if iv.end_minute > 0 then
      [toString iv.end_hour ++ "[0-" ++ toString iv.end_minute ++ "]"]
     else [])

/-- The fixed weekday iteration order of `set_weekly_time_limits`. -/
def day_order : List String :=
  ["monday", "tuesday", "wednesday", "thursday", "friday", "saturday", "sunday"]

/-- Rust's `as i64` cast of a non-NaN `f64`: truncation toward zero with
saturation at the `i64` bounds.  The `f64` value itself is modelled as an
exact rational (faithful whenever the Rust computation is exact in binary
floating point). -/
def f64_as_i64 (q : ℚ) : Int :=
  let t := if 0 ≤ q then ⌊q⌋ else -⌊-q⌋
  max (-(2 ^ 63)) (min (2 ^ 63 - 1) t)

/-- The day/limit accumulation loop of `SSHClient::set_weekly_time_limits`
(src/src/services/ssh.rs, lines 99-106): for each weekday with hours `> 0`,
push the 1-based day index and `(hours * 3600.0) as i64` onto two vectors. -/
def weeklyPairs (schedule : String → Option ℚ) : List String × List String :=
  day_order.enum.foldl
    (fun acc p =>
      match schedule p.2 with
      | some hours =>
        if 0 < hours then
          (acc.1 ++ [toString (p.1 + 1)],
           acc.2 ++ [toString (f64_as_i64 (hours * 3600))])
        else acc
      | none => acc)
    ([], [])

/-- One weekday's claim-side pair, per the claim's words: `(day index,
round(hours*3600))` when hours `> 0`, nothing otherwise. -/
def claimEntry (schedule : String → Option ℚ) (p : Nat × String) :
    Option (String × String) :=
  match schedule p.2 with
  | some hours =>
    if 0 < hours then
      some (toString (p.1 + 1), toString (round (hours * 3600)))
    else none
  | none => none

/-- Modelled from the claim's words: one `(day index, round(hours*3600))`
pair per weekday with hours `> 0`, weekdays with zero hours excluded, the
two components index-aligned by construction. -/
def claimWeeklyEntries (schedule : String → Option ℚ) : List (String × String) :=
  day_order.enum.filterMap (claimEntry schedule)

/-- One weekday's pair with the code's conversion: the `f64 → i64`
truncating cast of `hours * 3600.0` instead of rounding. -/
def amendedEntry (schedule : String → Option ℚ) (p : Nat × String) :
    Option (String × String) :=
  match schedule p.2 with
  | some hours =>
    if 0 < hours then
      some (toString (p.1 + 1), toString (f64_as_i64 (hours * 3600)))
    else none
  | none => none

/-- The claim amended to the code's conversion: seconds are obtained by the
`f64 → i64` truncating cast of `hours * 3600.0`, not by rounding. -/
def amendedWeeklyEntries (schedule : String → Option ℚ) : List (String × String) :=
  day_order.enum.filterMap (amendedEntry schedule)

/-- The spec's example weekly-hours map
`{monday: 2.5, tuesday: 0, wednesday: 4}`. -/
def exampleSchedule : String → Option ℚ := fun d =>
  if d = "monday" then some (5 / 2)
  else if d = "tuesday" then some 0
  else if d = "wednesday" then some 4 else none

/-- A weekly-hours map whose Monday hours, `2.500244140625` (exactly
representable in binary floating point, with `hours * 3600.0 =
9000.87890625` also exact), separate truncation from rounding. -/
def schedTruncExample : String → Option ℚ := fun d =>
  if d = "monday" then some (10241 / 4096) else none

/-- Outcome of one `execute_ssh_command` invocation: `Except.error` is the
transport-level `Err` (missing key / failed process spawn), `Except.ok`
carries `(exit_code, stdout, stderr)`. -/
abbrev CmdResult : Type := Except String (Int × String × String)

/-- Rust `{:?}` debug formatting of a `Vec<String>`. -/
def rustDebugVec (xs : List String) : String :=
  "[" ++ String.intercalate ", " (xs.map (fun s => "\"" ++ s ++ "\"")) ++ "]"

/-- `SSHClient::set_weekly_time_limits` (src/src/services/ssh.rs, lines
94-135) with the four possible remote-call outcomes passed explicitly:
`r1`/`r2` are the plain allowed-days and time-limits calls, `r1s`/`r2s` the
`sudo` retries attempted only when the corresponding plain call returned a
transport error. -/
def set_weekly_time_limits (username : String) (schedule : String → Option ℚ)
    (r1 r1s r2 r2s : CmdResult) : Bool × String :=
  let allowed_days := (weeklyPairs schedule).1
  let time_limits := (weeklyPairs schedule).2
  if allowed_days.isEmpty then
    (false, "No days with time limits configured")
  else
    let allowed_days_string := String.intercalate ";" allowed_days
    let daysFailure : Option (Bool × String) :=
      match r1 with
      | .ok _ => none
      | .error e =>
        match r1s with
        | .ok _ => none
        | .error _ => some (false, "Failed to set allowed days: " ++ e)
    match daysFailure with
    | some res => res
    | none =>
      let limitsFailure : Option (Bool × String) :=
        match r2 with
        | .ok _ => none
        | .error e =>
          match r2s with
          | .ok _ => none
          | .error _ => some (false, "Failed to set time limits: " ++ e)
      match limitsFailure with
      | some res => res
      | none =>
        (true, "Successfully configured daily time limits for " ++ username ++
          ". Days: " ++ allowed_days_string ++ ", Limits: " ++ rustDebugVec time_limits)

/-- `UserDailyTimeInterval::get_day_name`. -/
def get_day_name (iv : UserDailyTimeInterval) : String :=
  if iv.day_of_week = 1 then "Monday"
  else if iv.day_of_week = 2 then "Tuesday"
  else if iv.day_of_week = 3 then "Wednesday"
  else if iv.day_of_week = 4 then "Thursday"
  else if iv.day_of_week = 5 then "Friday"
  else if iv.day_of_week = 6 then "Saturday"
  else if iv.day_of_week = 7 then "Sunday"
  else "Unknown"

/-- One day's work inside `SSHClient::set_allowed_hours` (src/src/services/
ssh.rs, lines 141-183), given the day's interval and the outcomes of the
plain call `p` and of the `sudo` retry `s` (attempted only on a non-zero
exit of the plain call).  Returns whether the day counted as a success and
the error message pushed, if any.  A disabled or invalid interval gets the
full-day call, counted as a success exactly when the call is transport-`Ok`. -/
def allowed_hours_day_step (iv : UserDailyTimeInterval) (p s : CmdResult) :
    Bool × Option String :=
  if iv.is_enabled && is_valid_interval iv then
    match to_timekpr_format iv with
    | none => (false, none)
    | some _hour_specs =>
      match p with
      | .ok r =>
        if r.1 ≠ 0 then
          match s with
          | .ok r2 =>
            if r2.1 ≠ 0 then (false, some (get_day_name iv ++ ": " ++ r2.2.2))
            else (true, none)
          | .error e => (false, some (get_day_name iv ++ ": Connection error: " ++ e))
        else (true, none)
      | .error e => (false, some (get_day_name iv ++ ": Connection error: " ++ e))
  else
    match p with
    | .ok _ => (true, none)
    | .error _ => (false, none)

/-- The day numbers `1..=7` iterated by `set_allowed_hours`. -/
def days1to7 : List Int := [1, 2, 3, 4, 5, 6, 7]

/-- `SSHClient::set_allowed_hours` (src/src/services/ssh.rs, lines 137-190):
one attempt per weekday present in the map, lenient overall success when at
least one day succeeded. -/
def set_allowed_hours (username : String)
    (intervals : Int → Option UserDailyTimeInterval)
    (firstTry sudoTry : Int → CmdResult) : Bool × String :=
  let steps := days1to7.filterMap
    (fun d => (intervals d).map (fun iv => allowed_hours_day_step iv (firstTry d) (sudoTry d)))
  let success_count := (steps.filter (fun r => r.1)).length
  let error_messages := steps.filterMap (fun r => r.2)
  if success_count > 0 then
    (true, "Successfully configured allowed hours for " ++ username ++
      ". Days configured: " ++ toString success_count ++ "/7")
  else
    (false, "Failed to configure allowed hours: " ++
      String.intercalate "; " error_messages)

/-- A queued time adjustment: signed seconds plus the `+`/`-` operation. -/
structure PendingAdjustment where
  adjustment : Int
  operation : String

/-- Outcome of an `SSHClient::modify_time_left` call as matched by the
scheduler: `Ok((applied, message))` or a transport `Err`. -/
inductive ModifyTimeResult where
  | ok (applied : Bool) (message : String)
  | sshError (e : String)

/-- Whether the delta call reported a successful apply (`Ok((true, _))`). -/
def ModifyTimeResult.applied : ModifyTimeResult → Bool
  | .ok true _ => true
  | _ => false

/-- The pending-adjustment block of `BackgroundScheduler::update_user`
(src/src/services/scheduler.rs, lines 87-102): with a pending adjustment
present, `Ok((true, _))` clears it (`clear_pending_adjustment`); a failed
apply or a transport error leaves it untouched.  The returned flag records
whether `clear_pending_adjustment` was invoked. -/
def update_user_pending_step (p : Option PendingAdjustment)
    (r : ModifyTimeResult) : Option PendingAdjustment × Bool :=
  match p with
  | none => (none, false)
  | some q =>
    match r with
    | .ok true _ => (none, true)
    | .ok false _ => (some q, false)
    | .sshError _ => (some q, false)

/-- The pending-adjustment state across a sequence of scheduler ticks, with
the given per-tick call outcomes; also counts `clear_pending_adjustment`
invocations. -/
def run_pending_ticks : Option PendingAdjustment → List ModifyTimeResult →
    Option PendingAdjustment × Nat
  | p, [] => (p, 0)
  | p, r :: rs =>
    let s := update_user_pending_step p r
    let rest := run_pending_ticks s.1 rs
    (rest.1, (if s.2 then 1 else 0) + rest.2)

/-- `ManagedUser` (src/src/database/models.rs). -/
structure ManagedUser where
  id : Int
  username : String
  system_ip : String
  is_valid : Bool
  date_added : Int
  last_checked : Option Int
  last_config : Option String
  pending_time_adjustment : Option Int
  pending_time_operation : Option String

/-- JSON rendering of a parsed agent value (models `serde_json::to_string`,
string escaping elided). -/
def jvalToJson : JVal → String
  | .num n => toString n
  | .str s => "\"" ++ s ++ "\""
  | .bool b => if b then "true" else "false"
  | .arr xs => "[" ++ String.intercalate "," (xs.attach.map (fun x => jvalToJson x.1)) ++ "]"
termination_by v => sizeOf v
decreasing_by
  simp only [JVal.arr.sizeOf_spec]
  have h := List.sizeOf_lt_of_mem x.2
  omega

/-- JSON rendering of a whole parsed agent snapshot. -/
def configToJsonString (cfg : List (String × JVal)) : String :=
  "\x7b" ++ String.intercalate ","
    (cfg.map (fun p => "\"" ++ p.1 ++ "\":" ++ jvalToJson p.2)) ++ "\x7d"

/-- Result of `SSHClient::validate_user` as matched by the scheduler.
The SSH client itself maps transport errors to `Ok((false, msg, None))`, so
a transport failure is `.ok false msg none`; the scheduler's `Err` arm is
kept as `.sshError`. -/
inductive ValidateResult where
  | ok (is_valid : Bool) (message : String) (config : Option (List (String × JVal)))
  | sshError (e : String)

/-- The status-refresh block of `BackgroundScheduler::update_user`
(src/src/services/scheduler.rs, lines 154-183): a valid result carrying a
snapshot persists it via `update_validation` (which sets `is_valid`,
`last_checked` and `last_config`); every other outcome updates only
`last_checked`. -/
def update_user_validation (u : ManagedUser) (now : Int) (r : ValidateResult) :
    ManagedUser :=
  match r with
  | .ok is_valid _msg config =>
    if is_valid && config.isSome then
      { u with is_valid := is_valid,
               last_checked := some now,
               last_config := some (configToJsonString (config.getD [])) }
    else
      { u with last_checked := some now }
  | .sshError _ => { u with last_checked := some now }

/-- Control state of `BackgroundScheduler`: the shared `running` flag and
the number of live spawned run loops. -/
structure SchedulerState where
  running : Bool
  loops : Nat

/-- `BackgroundScheduler::new`: flag down, no loop spawned. -/
def newScheduler : SchedulerState := { running := false, loops := 0 }

/-- `BackgroundScheduler::start` (src/src/services/scheduler.rs, lines
26-41): an already-running scheduler returns immediately; otherwise the flag
is raised and one run loop is spawned. -/
def schedulerStart (s : SchedulerState) : SchedulerState :=
  if s.running then s else { running := true, loops := s.loops + 1 }

/-- `BackgroundScheduler::stop`: lowers the running flag. -/
def schedulerStop (s : SchedulerState) : SchedulerState :=
  { s with running := false }

/-- `BackgroundScheduler::is_running`: reads the flag. -/
def is_running (s : SchedulerState) : Bool := s.running

/-- The `while *self.running.read().await` check at the top of each tick of
`run_loop`: the loop body runs again exactly when the flag is up. -/
def loopContinues (s : SchedulerState) : Bool := s.running

/-- One weekday's submitted interval data in the `update_user_intervals`
request body: each field is the JSON lookup result (`as_i64`/`as_bool`),
`none` when absent or of the wrong type. -/
structure IntervalData where
  start_hour : Option Int
  start_minute : Option Int
  end_hour : Option Int
  end_minute : Option Int
  is_enabled : Option Bool

/-- Shared digit-parsing core of `str::parse::<i32>()`. -/
def parseI32Core (t : List Char) (sign : Int) : Option Int :=
  if t.isEmpty then none
  else if t.all (fun c => c.isDigit) then
    let v := sign * Int.ofNat (t.foldl (fun a c => a * 10 + (c.toNat - 48)) 0)
    if -2147483648 ≤ v ∧ v ≤ 2147483647 then some v else none
  else none

/-- Rust's `str::parse::<i32>()` on the day-key strings. -/
def parseI32 (s : String) : Option Int :=
  match s.data with
  | '-' :: rest => parseI32Core rest (-1)
  | '+' :: rest => parseI32Core rest 1
  | l => parseI32Core l 1

/-- The temporary interval built by `update_user_intervals` (src/src/
handlers/api.rs, lines 263-283): missing fields default to `9:00-17:00`,
disabled; the `as i32` casts wrap. -/
def mkTempInterval (user_id day : Int) (d : IntervalData) (now : Int) :
    UserDailyTimeInterval :=
  { id := 0, user_id := user_id, day_of_week := day,
    start_hour := wrap32 (d.start_hour.getD 9),
    start_minute := wrap32 (d.start_minute.getD 0),
    end_hour := wrap32 (d.end_hour.getD 17),
    end_minute := wrap32 (d.end_minute.getD 0),
    is_enabled := d.is_enabled.getD false,
    is_synced := false, last_synced := none, last_modified := now }

/-- The per-entry loop of `update_user_intervals` (src/src/handlers/api.rs,
lines 256-293): unparsable or out-of-range day keys are skipped, a valid
temporary interval is upserted (appended to the persisted list), and the
first invalid interval aborts with `success = false`, leaving previously
upserted intervals in place. -/
def processIntervalsGo (user_id now : Int) :
    List (String × IntervalData) → List UserDailyTimeInterval →
    Bool × List UserDailyTimeInterval
  | [], acc => (true, acc)
  | (dayStr, d) :: rest, acc =>
    match parseI32 dayStr with
    | none => processIntervalsGo user_id now rest acc
    | some day =>
      if day < 1 ∨ 7 < day then processIntervalsGo user_id now rest acc
      else
        let temp := mkTempInterval user_id day d now
        if is_valid_interval temp then
          processIntervalsGo user_id now rest (acc ++ [temp])
        else (false, acc)

/-- `update_user_intervals` on an authenticated request whose body contains
an `intervals` object, given as its entry list: returns the success flag and
the intervals persisted by the request. -/
def update_user_intervals (entries : List (String × IntervalData))
    (user_id now : Int) : Bool × List UserDailyTimeInterval :=
  processIntervalsGo user_id now entries []

/-- The typing a single `;`-list item receives in the parser: integer for
all-digit items (with the numeric value the digits denote), string
otherwise; booleans are never produced inside lists. -/
def itemTyping (item : String) : JVal :=
  if item.data.all (fun c => c.isDigit) then JVal.num (Int.ofNat (digitsVal item))
  else JVal.str item

/-- The claim's per-value typing discipline, amended to the code: all-digit
values that fit `i64` become integers; `;`-containing values become lists of
items re-typed as integer-or-string; `true`/`false` (ASCII
case-insensitive) become booleans; everything else stays a string. -/
def claimTyping (v : String) (jv : JVal) : Prop :=
  (v.data.all (fun c => c.isDigit) = true →
    jv = JVal.num (Int.ofNat (digitsVal v))) ∧
  (v.data.all (fun c => c.isDigit) = false → v.data.contains ';' = true →
    jv = JVal.arr ((rustSplit ";" v).map itemTyping)) ∧
  (v.data.all (fun c => c.isDigit) = false → v.data.contains ';' = false →
    strToLower v = "true" → jv = JVal.bool true) ∧
  (v.data.all (fun c => c.isDigit) = false → v.data.contains ';' = false →
    strToLower v = "false" → jv = JVal.bool false) ∧
  (v.data.all (fun c => c.isDigit) = false → v.data.contains ';' = false →
    strToLower v ≠ "true" → strToLower v ≠ "false" → jv = JVal.str v)

/-- A token is safe for the parser's `unwrap`: either it is not all-digit
(so no integer parse happens), or it is non-empty and its value fits
`i64`. -/
def tokenOk (t : String) : Bool :=
  !(t.data.all (fun c => c.isDigit)) ||
    (!t.data.isEmpty && decide (digitsVal t ≤ i64Max))

/-- A line is safe for the parser: it either carries no `": "`, an empty
value, or a value all of whose integer-parsed tokens are safe. -/
def lineOk (line : String) : Bool :=
  match splitOnce ": " line with
  | none => true
  | some kv =>
    let value := rustTrim kv.2
    value.data.isEmpty ||
      (if value.data.all (fun c => c.isDigit) then tokenOk value
       else if value.data.contains ';' then (rustSplit ";" value).all tokenOk
       else true)

lemma pushHourLoop_eq_range :
    ∀ (n : Nat) (a b : Int), (b - a).toNat = n →
      pushHourLoop a b = (List.range n).map (fun (k : Nat) => toString (a + (k : Int))) := by
  intro n
  induction n with
  | zero =>
    intro a b h
    rw [pushHourLoop]
    have hab : ¬ a < b := by omega
    simp [hab]
  | succ n ih =>
    intro a b h
    have hab : a < b := by omega
    rw [pushHourLoop]
    have h2 : (b - (a + 1)).toNat = n := by omega
    rw [if_pos hab, ih (a + 1) b h2, List.range_succ_eq_map, List.map_cons,
      List.map_map]
    congr 1
    · simp
    · refine List.map_congr_left (fun k _ => ?_)
      have harg : a + 1 + (k : Int) = a + ((k : Int) + 1) := by ring
      simp [Function.comp, harg]

/-- C2: for every enabled window satisfying the window invariant, the
window-to-hour-spec encoding produces exactly the token list described by
the spec: all whole hours of `[start_hour, end_hour)` when both minute
offsets are zero; a single bracketed token when the hours coincide;
otherwise a leading partial-hour token, the whole hours strictly between,
and a trailing token only when `end_minute > 0`. -/
theorem to_timekpr_format_matches_spec (iv : UserDailyTimeInterval)
    (hen : iv.is_enabled = true) (_hval : is_valid_interval iv = true) :
    to_timekpr_format iv = some (specHourTokens iv) := by
  unfold to_timekpr_format specHourTokens
  rw [hen]
  rw [pushHourLoop_eq_range ((iv.end_hour - iv.start_hour).toNat)
    iv.start_hour iv.end_hour rfl]
  rw [pushHourLoop_eq_range ((iv.end_hour - (iv.start_hour + 1)).toNat)
    (iv.start_hour + 1) iv.end_hour rfl]
  simp

/-- Witness for C2: the spec's own example, `encode(9,30,17,15)`. -/
theorem to_timekpr_format_matches_spec_witness :
    to_timekpr_format
      { id := 0, user_id := 0, day_of_week := 1, start_hour := 9,
        start_minute := 30, end_hour := 17, end_minute := 15,
        is_enabled := true, is_synced := false, last_synced := none,
        last_modified := 0 } =
      some ["9[30-59]", "10", "11", "12", "13", "14", "15", "16", "17[0-15]"] := by
  rw [to_timekpr_format_matches_spec _ rfl (by decide)]
  rfl

/-- C8: the scheduler control state has just the running flag and the spawned
loop: `start()` on a running scheduler is a no-op, two consecutive `start()`
calls from the initial state leave exactly one running loop, and after
`stop()` the flag is down, so `is_running()` is false and the `while`
check at the next tick boundary ends the loop. -/
theorem scheduler_start_idempotent_stop_halts (s : SchedulerState) :
    schedulerStart (schedulerStart s) = schedulerStart s ∧
    (schedulerStart newScheduler).loops = 1 ∧
    (schedulerStart (schedulerStart newScheduler)).loops = 1 ∧
    is_running (schedulerStop s) = false ∧
    loopContinues (schedulerStop s) = false := by
  refine ⟨?_, rfl, rfl, rfl, rfl⟩
  by_cases h : s.running <;> simp [schedulerStart, h]

/-- C6: in the scheduler's status refresh, a `validateUser` outcome that is
not a successful determination carrying a snapshot — in particular the
transport failure `Ok((false, msg, None))` produced by the SSH client, any
`Ok` without a snapshot, and the `Err` arm — updates only `last_checked`;
`is_valid`, the stored snapshot and the pending delta keep their prior
values, so an unreachable window never flips `is_valid`. -/
theorem transport_failure_touches_only_last_checked (u : ManagedUser)
    (now : Int) :
    (∀ (msg : String) (cfg : Option (List (String × JVal))),
      update_user_validation u now (.ok false msg cfg) =
        { u with last_checked := some now }) ∧
    (∀ (b : Bool) (msg : String),
      update_user_validation u now (.ok b msg none) =
        { u with last_checked := some now }) ∧
    (∀ e : String,
      update_user_validation u now (.sshError e) =
        { u with last_checked := some now }) ∧
    (∀ fails : List (Int × String),
      (fails.foldl
        (fun acc p => update_user_validation acc p.1 (.ok false p.2 none))
        u).is_valid = u.is_valid) := by
  refine ⟨fun msg cfg => ?_, fun b msg => ?_, fun e => rfl, fun fails => ?_⟩
  · simp [update_user_validation]
  · cases b <;> simp [update_user_validation]
  · induction fails generalizing u with
    | nil => rfl
    | cons p t ih =>
      simp only [List.foldl_cons]
      rw [ih]
      simp [update_user_validation]

lemma run_pending_ticks_none (l : List ModifyTimeResult) :
    run_pending_ticks none l = (none, 0) := by
  induction l with
  | nil => rfl
  | cons r t ih => simp [run_pending_ticks, update_user_pending_step, ih]

/-- C1: a pending delta survives every failed application attempt unchanged
(value and direction), and is cleared exactly once, by the first successful
`applyDelta` call — later ticks never clear again. -/
theorem pending_delta_never_lost (q : PendingAdjustment)
    (pre post : List ModifyTimeResult) (rs : ModifyTimeResult)
    (hpre : ∀ r ∈ pre, r.applied = false) (hs : rs.applied = true) :
    run_pending_ticks (some q) pre = (some q, 0) ∧
    run_pending_ticks (some q) (pre ++ rs :: post) = (none, 1) := by
  induction pre with
  | nil =>
    refine ⟨rfl, ?_⟩
    cases rs with
    | ok applied m =>
      cases applied with
      | false => simp [ModifyTimeResult.applied] at hs
      | true =>
        simp [run_pending_ticks, update_user_pending_step,
          run_pending_ticks_none]
    | sshError e => simp [ModifyTimeResult.applied] at hs
  | cons r t ih =>
    have hr : r.applied = false := hpre r (List.mem_cons_self r t)
    have ht : ∀ x ∈ t, x.applied = false := fun x hx =>
      hpre x (List.mem_cons_of_mem r hx)
    have hstep : update_user_pending_step (some q) r = (some q, false) := by
      cases r with
      | ok applied m =>
        cases applied with
        | false => rfl
        | true => simp [ModifyTimeResult.applied] at hr
      | sshError e => rfl
    obtain ⟨ih1, ih2⟩ := ih ht
    constructor
    · simp [run_pending_ticks, hstep, ih1]
    · simp [run_pending_ticks, hstep, ih2]

/-- Witness for C1: a 300-second increase adjustment survives a rejected
apply and a transport error, then is cleared exactly once on success. -/
theorem pending_delta_never_lost_witness :
    run_pending_ticks (some ⟨300, "+"⟩)
      [.ok false "error", .sshError "timeout"] = (some ⟨300, "+"⟩, 0) ∧
    run_pending_ticks (some ⟨300, "+"⟩)
      [.ok false "error", .sshError "timeout", .ok true "done",
        .ok true "again"] = (none, 1) := by
  exact pending_delta_never_lost ⟨300, "+"⟩
    [.ok false "error", .sshError "timeout"] [.ok true "again"]
    (.ok true "done") (by decide) rfl

/-- C4: with at least one weekday configured, `set_weekly_time_limits`
performs its two remote calls in sequence — set allowed days, then set time
limits — and returns `ok = true` exactly when both calls succeed (a call
succeeds when either the plain attempt or, after a transport error, the
best-effort `sudo` retry completes); a failure of either call yields
`ok = false`. -/
theorem set_weekly_time_limits_ok_iff (username : String)
    (schedule : String → Option ℚ) (r1 r1s r2 r2s : CmdResult)
    (h : (weeklyPairs schedule).1 ≠ []) :
    ((set_weekly_time_limits username schedule r1 r1s r2 r2s).1 = true ↔
      ((r1.isOk = true ∨ r1s.isOk = true) ∧
       (r2.isOk = true ∨ r2s.isOk = true))) := by
  unfold set_weekly_time_limits
  rw [if_neg (by simpa [List.isEmpty_iff] using h)]
  cases r1 <;> cases r1s <;> cases r2 <;> cases r2s <;>
    simp [Except.isOk, Except.toBool]


lemma day_order_enum : day_order.enum = [(0, "monday"), (1, "tuesday"),
    (2, "wednesday"), (3, "thursday"), (4, "friday"), (5, "saturday"),
    (6, "sunday")] := rfl

lemma amendedEntry_example_monday :
    amendedEntry exampleSchedule (0, "monday") = some ("1", "9000") := by
  unfold amendedEntry exampleSchedule
  have h1 : (0 : ℚ) < 5 / 2 := by norm_num
  have h2 : f64_as_i64 (5 / 2 * 3600) = 9000 := by
    unfold f64_as_i64
    norm_num
  simp [h1, h2]
  exact ⟨rfl, rfl⟩

lemma amendedEntry_example_tuesday :
    amendedEntry exampleSchedule (1, "tuesday") = none := by
  unfold amendedEntry exampleSchedule
  simp

lemma amendedEntry_example_wednesday :
    amendedEntry exampleSchedule (2, "wednesday") = some ("3", "14400") := by
  unfold amendedEntry exampleSchedule
  have h2 : f64_as_i64 (4 * 3600) = 14400 := by
    unfold f64_as_i64
    norm_num
  simp [h2]
  exact ⟨rfl, rfl⟩

lemma amendedEntry_example_rest :
    amendedEntry exampleSchedule (3, "thursday") = none ∧
    amendedEntry exampleSchedule (4, "friday") = none ∧
    amendedEntry exampleSchedule (5, "saturday") = none ∧
    amendedEntry exampleSchedule (6, "sunday") = none := by
  refine ⟨?_, ?_, ?_, ?_⟩ <;>
    · unfold amendedEntry exampleSchedule
      simp

lemma amendedWeeklyEntries_example :
    amendedWeeklyEntries exampleSchedule = [("1", "9000"), ("3", "14400")] := by
  unfold amendedWeeklyEntries
  rw [day_order_enum]
  obtain ⟨h3, h4, h5, h6⟩ := amendedEntry_example_rest
  simp [List.filterMap_cons, amendedEntry_example_monday,
    amendedEntry_example_tuesday, amendedEntry_example_wednesday, h3, h4, h5, h6]

lemma foldl_push_pairs (g : Nat × String → Option (String × String)) :
    ∀ (l : List (Nat × String)) (acc : List String × List String),
      l.foldl (fun acc p => match g p with
        | some pr => (acc.1 ++ [pr.1], acc.2 ++ [pr.2])
        | none => acc) acc =
      (acc.1 ++ (l.filterMap g).map Prod.fst,
       acc.2 ++ (l.filterMap g).map Prod.snd) := by
  intro l
  induction l with
  | nil => intro acc; simp
  | cons p t ih =>
    intro acc
    rw [List.foldl_cons, List.filterMap_cons]
    cases hg : g p with
    | none => simp only [hg]; rw [ih]
    | some pr =>
      simp only [hg]
      rw [ih]
      simp

lemma weeklyPairs_eq_amended (schedule : String → Option ℚ) :
    weeklyPairs schedule = ((amendedWeeklyEntries schedule).map Prod.fst,
      (amendedWeeklyEntries schedule).map Prod.snd) := by
  unfold weeklyPairs amendedWeeklyEntries
  have hstep : (fun (acc : List String × List String) (p : Nat × String) =>
      match schedule p.2 with
      | some hours =>
        if 0 < hours then
          (acc.1 ++ [toString (p.1 + 1)],
           acc.2 ++ [toString (f64_as_i64 (hours * 3600))])
        else acc
      | none => acc) =
    (fun acc p =>
      match amendedEntry schedule p with
      | some pr => (acc.1 ++ [pr.1], acc.2 ++ [pr.2])
      | none => acc) := by
    funext acc p
    unfold amendedEntry
    cases schedule p.2 with
    | none => rfl
    | some hours =>
      by_cases h0 : 0 < hours <;> simp [h0]
  rw [hstep, foldl_push_pairs]
  simp

lemma weeklyPairs_example :
    weeklyPairs exampleSchedule = (["1", "3"], ["9000", "14400"]) := by
  rw [weeklyPairs_eq_amended, amendedWeeklyEntries_example]
  rfl

/-- Witness for C4: the spec's example schedule with both calls succeeding. -/
theorem set_weekly_time_limits_ok_iff_witness :
    ((set_weekly_time_limits "alice" exampleSchedule
        (.ok (0, "", "")) (.error "unused") (.ok (0, "", ""))
        (.error "unused")).1 = true ↔
      (((Except.ok ((0 : Int), "", "") : CmdResult).isOk = true ∨
        (Except.error "unused" : CmdResult).isOk = true) ∧
       ((Except.ok ((0 : Int), "", "") : CmdResult).isOk = true ∨
        (Except.error "unused" : CmdResult).isOk = true))) :=
  set_weekly_time_limits_ok_iff "alice" exampleSchedule _ _ _ _
    (by rw [weeklyPairs_example]; decide)

lemma truncEntries_eval :
    amendedWeeklyEntries schedTruncExample = [("1", "9000")] ∧
    claimWeeklyEntries schedTruncExample = [("1", "9001")] := by
  have hother : ∀ p : Nat × String, p.2 ≠ "monday" →
      amendedEntry schedTruncExample p = none ∧
      claimEntry schedTruncExample p = none := by
    intro p hp
    unfold amendedEntry claimEntry schedTruncExample
    simp [hp]
  have htr : amendedEntry schedTruncExample (0, "monday") = some ("1", "9000") := by
    unfold amendedEntry schedTruncExample
    have h1 : (0 : ℚ) < 10241 / 4096 := by norm_num
    have h2 : f64_as_i64 (10241 / 4096 * 3600) = 9000 := by
      unfold f64_as_i64
      norm_num
    simp [h1, h2]
    exact ⟨rfl, rfl⟩
  have htrc : claimEntry schedTruncExample (0, "monday") = some ("1", "9001") := by
    unfold claimEntry schedTruncExample
    have h1 : (0 : ℚ) < 10241 / 4096 := by norm_num
    have h2 : round ((10241 : ℚ) / 4096 * 3600) = 9001 := by
      rw [round_eq]
      norm_num
    simp [h1, h2]
    exact ⟨rfl, rfl⟩
  unfold amendedWeeklyEntries claimWeeklyEntries
  rw [day_order_enum]
  constructor <;>
    simp [List.filterMap_cons, htr, htrc,
      (hother (1, "tuesday") (by decide)).1, (hother (1, "tuesday") (by decide)).2,
      (hother (2, "wednesday") (by decide)).1, (hother (2, "wednesday") (by decide)).2,
      (hother (3, "thursday") (by decide)).1, (hother (3, "thursday") (by decide)).2,
      (hother (4, "friday") (by decide)).1, (hother (4, "friday") (by decide)).2,
      (hother (5, "saturday") (by decide)).1, (hother (5, "saturday") (by decide)).2,
      (hother (6, "sunday") (by decide)).1, (hother (6, "sunday") (by decide)).2]

/-- Counterexample for C3: with Monday hours `2.500244140625` (an exact
binary floating-point value whose product with 3600 is exactly
`9000.87890625`), the code emits the truncated `"9000"` while the claim's
`round(hours*3600)` demands `"9001"`, so the claimed conversion is not the
one the code performs. -/
theorem weekly_limits_round_counterexample :
    weeklyPairs schedTruncExample ≠
      ((claimWeeklyEntries schedTruncExample).map Prod.fst,
       (claimWeeklyEntries schedTruncExample).map Prod.snd) := by
  obtain ⟨h1, h2⟩ := truncEntries_eval
  rw [weeklyPairs_eq_amended, h1, h2]
  decide

/-- C3 (amended): the weekly-hours conversion emits, for each weekday with
hours `> 0`, the 1-based day index and `trunc(hours*3600)` seconds — the
truncating `f64 → i64` cast, not `round` — weekdays with zero hours appear
in neither list, and the two lists are index-aligned (both are projections
of one entry list); the spec's example `{monday: 2.5, tuesday: 0,
wednesday: 4}` yields `["1", "3"]` and `["9000", "14400"]`. -/
theorem weekly_limits_truncated_pairs (schedule : String → Option ℚ) :
    weeklyPairs schedule = ((amendedWeeklyEntries schedule).map Prod.fst,
      (amendedWeeklyEntries schedule).map Prod.snd) ∧
    weeklyPairs exampleSchedule = (["1", "3"], ["9000", "14400"]) :=
  ⟨weeklyPairs_eq_amended schedule, weeklyPairs_example⟩

lemma mem_allowed_hours_steps (intervals : Int → Option UserDailyTimeInterval)
    (firstTry sudoTry : Int → CmdResult) (x : Bool × Option String) :
    x ∈ days1to7.filterMap
      (fun d => (intervals d).map
        (fun iv => allowed_hours_day_step iv (firstTry d) (sudoTry d))) ↔
    ∃ d ∈ days1to7, ∃ iv, intervals d = some iv ∧
      allowed_hours_day_step iv (firstTry d) (sudoTry d) = x := by
  simp [List.mem_filterMap, Option.map_eq_some']

lemma allowed_hours_success_pos_iff
    (intervals : Int → Option UserDailyTimeInterval)
    (firstTry sudoTry : Int → CmdResult) :
    0 < ((days1to7.filterMap
      (fun d => (intervals d).map
        (fun iv => allowed_hours_day_step iv (firstTry d) (sudoTry d)))).filter
      (fun r => r.1)).length ↔
    ∃ d ∈ days1to7, ∃ iv, intervals d = some iv ∧
      (allowed_hours_day_step iv (firstTry d) (sudoTry d)).1 = true := by
  have hpos : 0 < ((days1to7.filterMap
      (fun d => (intervals d).map
        (fun iv => allowed_hours_day_step iv (firstTry d) (sudoTry d)))).filter
      (fun r => r.1)).length ↔
      ∃ x ∈ days1to7.filterMap
        (fun d => (intervals d).map
          (fun iv => allowed_hours_day_step iv (firstTry d) (sudoTry d))),
        x.1 = true := by
    simp [List.length_pos, List.filter_eq_nil_iff]
  rw [hpos]
  constructor
  · rintro ⟨x, hx, hx1⟩
    obtain ⟨d, hd, iv, hiv, hstep⟩ :=
      (mem_allowed_hours_steps intervals firstTry sudoTry x).mp hx
    exact ⟨d, hd, iv, hiv, by rw [hstep]; exact hx1⟩
  · rintro ⟨d, hd, iv, hiv, hok⟩
    exact ⟨allowed_hours_day_step iv (firstTry d) (sudoTry d),
      (mem_allowed_hours_steps intervals firstTry sudoTry _).mpr
        ⟨d, hd, iv, hiv, rfl⟩, hok⟩

/-- C5: with a window supplied for each of the seven weekdays,
`set_allowed_hours` makes one remote attempt per weekday (seven attempts)
and returns `ok = true` exactly when at least one per-day attempt succeeded:
partial application still yields `ok = true`, and `ok = false` only when
every per-day attempt failed. -/
theorem set_allowed_hours_lenient_ok (username : String)
    (intervals : Int → Option UserDailyTimeInterval)
    (firstTry sudoTry : Int → CmdResult)
    (h : ∀ d ∈ days1to7, (intervals d).isSome = true) :
    ((set_allowed_hours username intervals firstTry sudoTry).1 = true ↔
      ∃ d ∈ days1to7, ∃ iv, intervals d = some iv ∧
        (allowed_hours_day_step iv (firstTry d) (sudoTry d)).1 = true) ∧
    (days1to7.filterMap
      (fun d => (intervals d).map
        (fun iv => allowed_hours_day_step iv (firstTry d) (sudoTry d)))).length
      = 7 := by
  constructor
  · simp only [set_allowed_hours]
    split_ifs with hc
    · simp only [true_iff]
      exact (allowed_hours_success_pos_iff intervals firstTry sudoTry).mp hc
    · constructor
      · intro hfalse
        simp at hfalse
      · intro hex
        exact absurd
          ((allowed_hours_success_pos_iff intervals firstTry sudoTry).mpr hex) hc
  · obtain ⟨iv1, h1⟩ := Option.isSome_iff_exists.mp (h 1 (by decide))
    obtain ⟨iv2, h2⟩ := Option.isSome_iff_exists.mp (h 2 (by decide))
    obtain ⟨iv3, h3⟩ := Option.isSome_iff_exists.mp (h 3 (by decide))
    obtain ⟨iv4, h4⟩ := Option.isSome_iff_exists.mp (h 4 (by decide))
    obtain ⟨iv5, h5⟩ := Option.isSome_iff_exists.mp (h 5 (by decide))
    obtain ⟨iv6, h6⟩ := Option.isSome_iff_exists.mp (h 6 (by decide))
    obtain ⟨iv7, h7⟩ := Option.isSome_iff_exists.mp (h 7 (by decide))
    simp [days1to7, List.filterMap, h1, h2, h3, h4, h5, h6, h7]

/-- Witness for C5: all seven weekdays carry the same enabled 9:30-17:15
window, every plain call exits 0, so the lenient criterion reports success. -/
theorem set_allowed_hours_lenient_ok_witness :
    (((set_allowed_hours "alice"
        (fun _ => some ⟨0, 0, 1, 9, 30, 17, 15, true, false, none, 0⟩)
        (fun _ => .ok (0, "", "")) (fun _ => .error "x")).1 = true ↔
      ∃ d ∈ days1to7, ∃ iv,
        (fun _ => some ⟨0, 0, 1, 9, 30, 17, 15, true, false, none, 0⟩ :
          Int → Option UserDailyTimeInterval) d = some iv ∧
        (allowed_hours_day_step iv ((fun _ => .ok (0, "", "")) d)
          ((fun _ => .error "x") d)).1 = true) ∧
    (days1to7.filterMap
      (fun d => ((fun _ => some ⟨0, 0, 1, 9, 30, 17, 15, true, false, none, 0⟩ :
          Int → Option UserDailyTimeInterval) d).map
        (fun iv => allowed_hours_day_step iv ((fun _ => .ok (0, "", "")) d)
          ((fun _ => .error "x") d)))).length = 7) :=
  set_allowed_hours_lenient_ok "alice"
    (fun _ => some ⟨0, 0, 1, 9, 30, 17, 15, true, false, none, 0⟩)
    (fun _ => .ok (0, "", "")) (fun _ => .error "x") (fun _ _ => rfl)

lemma processIntervalsGo_false (uid now : Int) :
    ∀ (entries : List (String × IntervalData)) (acc : List UserDailyTimeInterval),
      (∃ e ∈ entries, ∃ day, parseI32 e.1 = some day ∧ 1 ≤ day ∧ day ≤ 7 ∧
        is_valid_interval (mkTempInterval uid day e.2 now) = false) →
      (processIntervalsGo uid now entries acc).1 = false := by
  intro entries
  induction entries with
  | nil =>
    rintro acc ⟨e, he, _⟩
    cases he
  | cons hd tl ih =>
    intro acc h
    obtain ⟨dayStr, d⟩ := hd
    obtain ⟨e, he, day, hday, hlow, hhigh, hinv⟩ := h
    simp only [processIntervalsGo]
    cases hp : parseI32 dayStr with
    | none =>
      simp only []
      apply ih
      rcases List.mem_cons.mp he with heq | hmem
      · simp only [heq] at hday
        rw [hp] at hday
        cases hday
      · exact ⟨e, hmem, day, hday, hlow, hhigh, hinv⟩
    | some dd =>
      simp only []
      by_cases hrange : dd < 1 ∨ 7 < dd
      · rw [if_pos hrange]
        apply ih
        rcases List.mem_cons.mp he with heq | hmem
        · simp only [heq] at hday
          rw [hp] at hday
          have hdd : dd = day := by injection hday
          omega
        · exact ⟨e, hmem, day, hday, hlow, hhigh, hinv⟩
      · rw [if_neg hrange]
        by_cases hv : is_valid_interval (mkTempInterval uid dd d now) = true
        · rw [if_pos hv]
          apply ih
          rcases List.mem_cons.mp he with heq | hmem
          · simp only [heq] at hday hinv
            rw [hp] at hday
            have hdd : dd = day := by injection hday
            rw [hdd, hinv] at hv
            cases hv
          · exact ⟨e, hmem, day, hday, hlow, hhigh, hinv⟩
        · rw [if_neg hv]

lemma processIntervalsGo_persisted (uid now : Int) :
    ∀ (entries : List (String × IntervalData)) (acc : List UserDailyTimeInterval),
      ∀ iv ∈ (processIntervalsGo uid now entries acc).2,
        iv ∈ acc ∨ (is_valid_interval iv = true ∧
          ∃ e ∈ entries, ∃ day, parseI32 e.1 = some day ∧
            iv = mkTempInterval uid day e.2 now) := by
  intro entries
  induction entries with
  | nil =>
    intro acc iv hiv
    exact Or.inl hiv
  | cons hd tl ih =>
    intro acc iv hiv
    obtain ⟨dayStr, d⟩ := hd
    simp only [processIntervalsGo] at hiv
    cases hp : parseI32 dayStr with
    | none =>
      rw [hp] at hiv
      simp only [] at hiv
      rcases ih acc iv hiv with hin | ⟨hval2, e, hmem, day, hday, heq⟩
      · exact Or.inl hin
      · exact Or.inr ⟨hval2, e, List.mem_cons_of_mem _ hmem, day, hday, heq⟩
    | some dd =>
      rw [hp] at hiv
      simp only [] at hiv
      by_cases hrange : dd < 1 ∨ 7 < dd
      · rw [if_pos hrange] at hiv
        rcases ih acc iv hiv with hin | ⟨hval2, e, hmem, day, hday, heq⟩
        · exact Or.inl hin
        · exact Or.inr ⟨hval2, e, List.mem_cons_of_mem _ hmem, day, hday, heq⟩
      · rw [if_neg hrange] at hiv
        by_cases hv : is_valid_interval (mkTempInterval uid dd d now) = true
        · rw [if_pos hv] at hiv
          rcases ih _ iv hiv with hin | ⟨hval2, e, hmem, day, hday, heq⟩
          · rcases List.mem_append.mp hin with hacc | hnew
            · exact Or.inl hacc
            · have : iv = mkTempInterval uid dd d now := by
                simpa using hnew
              exact Or.inr ⟨by rw [this]; exact hv,
                (dayStr, d), List.mem_cons_self _ _, dd, hp, this⟩
          · exact Or.inr ⟨hval2, e, List.mem_cons_of_mem _ hmem, day, hday, heq⟩
        · rw [if_neg hv] at hiv
          exact Or.inl hiv

/-- C9 (amended): if a submitted daily window (under a parseable in-range
day key) fails the code's validity check — `start offset < end offset` with
both offsets in `[0, 1440)`, the offsets computed with the wrapping `i32`
arithmetic the release build performs — the `update_user_intervals` request
returns `success = false` and that window is not persisted; moreover every
interval the request does persist is exactly the submitted data (defaults
applied, `as i32` casts wrapped, never clamped into range) and passes that
check.  A window whose true offsets overflow `i32` can wrap into acceptance
instead — see the counterexample. -/
theorem invalid_interval_rejected (entries : List (String × IntervalData))
    (uid now : Int) (e : String × IntervalData) (he : e ∈ entries) (day : Int)
    (hday : parseI32 e.1 = some day) (hlow : 1 ≤ day) (hhigh : day ≤ 7)
    (hinv : is_valid_interval (mkTempInterval uid day e.2 now) = false) :
    (update_user_intervals entries uid now).1 = false ∧
    (∀ iv ∈ (update_user_intervals entries uid now).2,
      is_valid_interval iv = true ∧
      ∃ e2 ∈ entries, ∃ d2, parseI32 e2.1 = some d2 ∧
        iv = mkTempInterval uid d2 e2.2 now) ∧
    mkTempInterval uid day e.2 now ∉ (update_user_intervals entries uid now).2 := by
  have hfalse := processIntervalsGo_false uid now entries []
    ⟨e, he, day, hday, hlow, hhigh, hinv⟩
  have hpers : ∀ iv ∈ (update_user_intervals entries uid now).2,
      is_valid_interval iv = true ∧
      ∃ e2 ∈ entries, ∃ d2, parseI32 e2.1 = some d2 ∧
        iv = mkTempInterval uid d2 e2.2 now := by
    intro iv hiv
    rcases processIntervalsGo_persisted uid now entries [] iv hiv with hin | hgood
    · cases hin
    · exact hgood
  refine ⟨hfalse, hpers, fun hmem => ?_⟩
  have hval2 := (hpers _ hmem).1
  rw [hinv] at hval2
  cases hval2

/-- Counterexample for C9: the submitted Monday window with
`start_hour = 71582789` has a true start offset of `71582789 * 60 =
4294967340` minutes, far outside `[0, 1440)`, so the claimed invariant is
violated — yet the release-mode `i32` computation wraps that offset to `44`,
the validity check passes, the request returns `success = true` and the
window is persisted, contradicting the claimed rejection (a debug build
panics on the overflow instead of returning an error). -/
theorem interval_overflow_counterexample :
    (update_user_intervals
      [("1", ⟨some 71582789, some 0, some 0, some 100, some true⟩)] 1 0).1
      = true ∧
    (update_user_intervals
      [("1", ⟨some 71582789, some 0, some 0, some 100, some true⟩)] 1 0).2 =
      [mkTempInterval 1 1 ⟨some 71582789, some 0, some 0, some 100, some true⟩ 0] ∧
    1440 ≤ (mkTempInterval 1 1
        ⟨some 71582789, some 0, some 0, some 100, some true⟩ 0).start_hour * 60 +
      (mkTempInterval 1 1
        ⟨some 71582789, some 0, some 0, some 100, some true⟩ 0).start_minute :=
  ⟨by decide, rfl, by decide⟩

/-- Witness for C9: submitting a reversed window `17:00-9:00` for Monday is
rejected and nothing is persisted. -/
theorem invalid_interval_rejected_witness :
    (update_user_intervals
      [("1", ⟨some 17, some 0, some 9, some 0, some true⟩)] 1 0).1 = false ∧
    (∀ iv ∈ (update_user_intervals
        [("1", ⟨some 17, some 0, some 9, some 0, some true⟩)] 1 0).2,
      is_valid_interval iv = true ∧
      ∃ e2 ∈ [(("1" : String),
          (⟨some 17, some 0, some 9, some 0, some true⟩ : IntervalData))],
        ∃ d2, parseI32 e2.1 = some d2 ∧
          iv = mkTempInterval 1 d2 e2.2 0) ∧
    mkTempInterval 1 1 ⟨some 17, some 0, some 9, some 0, some true⟩ 0 ∉
      (update_user_intervals
        [("1", ⟨some 17, some 0, some 9, some 0, some true⟩)] 1 0).2 :=
  invalid_interval_rejected
    [("1", ⟨some 17, some 0, some 9, some 0, some true⟩)] 1 0
    ("1", ⟨some 17, some 0, some 9, some 0, some true⟩)
    (List.mem_cons_self _ _) 1 (by decide) (by decide) (by decide) (by decide)

/-- Counterexample for C7: the value `9223372036854775808` is numeric
(all ASCII digits), yet the parser does not map it to an integer — the
`unwrap` on the overflowing `i64` parse panics (modelled by `none`), so the
claimed "numeric values become integers" mapping does not hold for every
agent output. -/
theorem parser_typing_counterexample :
    ("9223372036854775808".data.all (fun c => c.isDigit)) = true ∧
    parse_timekpr_output "K: 9223372036854775808" = none :=
  ⟨rfl, rfl⟩

/-- Counterexample for C10: on the output line `K: 1;;2` the empty list item
passes the all-digits check, its `i64` parse fails, and the `unwrap` panics
(modelled by `none`), so the parser does not return a map on every input. -/
theorem parser_unwrap_counterexample :
    parse_timekpr_output "K: 1;;2" = none ∧
    (("" : String).data.all (fun c => c.isDigit)) = true ∧
    parseI64 "" = none :=
  ⟨rfl, rfl, rfl⟩

lemma parseI64_eq_of_digits (t : String) (n : Int)
    (h : parseI64 t = some n) : n = Int.ofNat (digitsVal t) := by
  unfold parseI64 at h
  by_cases he : t.data.isEmpty = true
  · rw [if_pos he] at h
    cases h
  · rw [if_neg he] at h
    by_cases hd : t.data.all (fun c => c.isDigit) = true
    · rw [if_pos hd] at h
      by_cases hle : digitsVal t ≤ i64Max
      · rw [if_pos hle] at h
        injection h with h1
        exact h1.symm
      · rw [if_neg hle] at h
        cases h
    · rw [if_neg hd] at h
      cases h

lemma retypeItem_sound (item : String) (jv : JVal)
    (h : retypeItem item = some jv) : jv = itemTyping item := by
  unfold retypeItem at h
  unfold itemTyping
  by_cases hd : item.data.all (fun c => c.isDigit) = true
  · rw [if_pos hd] at h
    rw [if_pos hd]
    cases hp : parseI64 item with
    | none =>
      rw [hp] at h
      cases h
    | some n =>
      rw [hp] at h
      injection h with h1
      rw [← h1, parseI64_eq_of_digits item n hp]
  · rw [if_neg hd] at h
    rw [if_neg hd]
    injection h with h1
    exact h1.symm

lemma mapM_retypeItem_sound :
    ∀ (l : List String) (ys : List JVal),
      l.mapM retypeItem = some ys → ys = l.map itemTyping := by
  intro l
  induction l with
  | nil =>
    intro ys h
    injection h with h1
    rw [← h1]
    rfl
  | cons a t ih =>
    intro ys h
    rw [List.mapM_cons] at h
    cases ha : retypeItem a with
    | none =>
      rw [ha] at h
      cases h
    | some b =>
      rw [ha] at h
      cases ht : t.mapM retypeItem with
      | none =>
        rw [ht] at h
        cases h
      | some bs =>
        rw [ht] at h
        injection h with h1
        rw [← h1, List.map_cons, retypeItem_sound a b ha, ih bs ht]

lemma retypeValue_sound (v : String) (jv : JVal)
    (h : retypeValue v = some jv) : claimTyping v jv := by
  unfold retypeValue at h
  unfold claimTyping
  by_cases hd : v.data.all (fun c => c.isDigit) = true
  · rw [if_pos hd] at h
    refine ⟨fun _ => ?_, fun hf _ => ?_, fun hf _ _ => ?_,
      fun hf _ _ => ?_, fun hf _ _ _ => ?_⟩
    · cases hp : parseI64 v with
      | none =>
        rw [hp] at h
        cases h
      | some n =>
        rw [hp] at h
        injection h with h1
        rw [← h1, parseI64_eq_of_digits v n hp]
    all_goals rw [hd] at hf; cases hf
  · rw [if_neg hd] at h
    have hdf : v.data.all (fun c => c.isDigit) = false :=
      Bool.not_eq_true _ ▸ (by simpa using hd)
    by_cases hc : v.data.contains ';' = true
    · rw [if_pos hc] at h
      refine ⟨fun ht => ?_, fun _ _ => ?_, fun _ hcf => ?_,
        fun _ hcf => ?_, fun _ hcf => ?_⟩
      · rw [ht] at hdf
        cases hdf
      · cases hys : (rustSplit ";" v).mapM retypeItem with
        | none =>
          rw [hys] at h
          cases h
        | some ys =>
          rw [hys] at h
          injection h with h1
          rw [← h1, mapM_retypeItem_sound _ ys hys]
      all_goals rw [hc] at hcf; cases hcf
    · rw [if_neg hc] at h
      have hcf : v.data.contains ';' = false := by
        simpa using hc
      by_cases htr : strToLower v = "true"
      · rw [if_pos htr] at h
        injection h with h1
        refine ⟨fun ht => ?_, fun _ hcc => ?_, fun _ _ _ => h1.symm,
          fun _ _ hfa => ?_, fun _ _ hne _ => ?_⟩
        · rw [ht] at hdf
          cases hdf
        · rw [hcc] at hcf
          cases hcf
        · rw [htr] at hfa
          exact absurd hfa (by decide)
        · exact absurd htr hne
      · rw [if_neg htr] at h
        by_cases hfa : strToLower v = "false"
        · rw [if_pos hfa] at h
          injection h with h1
          refine ⟨fun ht => ?_, fun _ hcc => ?_, fun _ _ htt => ?_,
            fun _ _ _ => h1.symm, fun _ _ _ hne => ?_⟩
          · rw [ht] at hdf
            cases hdf
          · rw [hcc] at hcf
            cases hcf
          · exact absurd htt htr
          · exact absurd hfa hne
        · rw [if_neg hfa] at h
          injection h with h1
          refine ⟨fun ht => ?_, fun _ hcc => ?_, fun _ _ htt => ?_,
            fun _ _ hff => ?_, fun _ _ _ _ => h1.symm⟩
          · rw [ht] at hdf
            cases hdf
          · rw [hcc] at hcf
            cases hcf
          · exact absurd htt htr
          · exact absurd hff hfa

lemma parse_fold_sound :
    ∀ (ls : List String) (m0 m : List (String × JVal)),
      ls.foldlM parseLineStep m0 = some m →
      ∀ p ∈ m, p ∈ m0 ∨ ∃ line ∈ ls, ∃ kv, splitOnce ": " line = some kv ∧
        p.1 = rustTrim kv.1 ∧ (rustTrim kv.2).data.isEmpty = false ∧
        retypeValue (rustTrim kv.2) = some p.2 := by
  intro ls
  induction ls with
  | nil =>
    intro m0 m h p hp
    simp only [List.foldlM_nil] at h
    injection h with h1
    rw [← h1] at hp
    exact Or.inl hp
  | cons l t ih =>
    intro m0 m h p hp
    rw [List.foldlM_cons] at h
    cases hstep : parseLineStep m0 l with
    | none =>
      rw [hstep] at h
      cases h
    | some m1 =>
      rw [hstep] at h
      have h' : t.foldlM parseLineStep m1 = some m := h
      rcases ih m1 m h' p hp with hin1 | ⟨line, hline, kv, hkv, h1, h2, h3⟩
      · unfold parseLineStep at hstep
        cases hsp : splitOnce ": " l with
        | none =>
          rw [hsp] at hstep
          injection hstep with hm
          rw [← hm] at hin1
          exact Or.inl hin1
        | some kv =>
          rw [hsp] at hstep
          simp only [] at hstep
          by_cases he : (rustTrim kv.2).data.isEmpty = true
          · rw [if_pos he] at hstep
            injection hstep with hm
            rw [← hm] at hin1
            exact Or.inl hin1
          · rw [if_neg he] at hstep
            cases hrv : retypeValue (rustTrim kv.2) with
            | none =>
              rw [hrv] at hstep
              cases hstep
            | some jv =>
              rw [hrv] at hstep
              injection hstep with hm
              rw [← hm] at hin1
              unfold insertKV at hin1
              rcases List.mem_append.mp hin1 with hf | hnew
              · exact Or.inl (List.mem_of_mem_filter hf)
              · have hp2 : p = (rustTrim kv.1, jv) := by
                  simpa using hnew
                refine Or.inr ⟨l, List.mem_cons_self _ _, kv, hsp, ?_, ?_, ?_⟩
                · rw [hp2]
                · simpa using he
                · rw [hp2]
                  exact hrv
      · exact Or.inr ⟨line, List.mem_cons_of_mem _ hline, kv, hkv, h1, h2, h3⟩

/-- C7 (amended): every binding a successful parse produces comes from some
`key: value` line of the output and follows the code's typing discipline:
all-digit values fitting `i64` become integers; `;`-containing values
become lists whose items are re-typed to integer (all-digit) or string —
never boolean; `true`/`false` (ASCII case-insensitive) become booleans;
every other value stays a string.  (All-digit tokens that are empty or
exceed `i64::MAX` instead panic the parser — see the counterexample.) -/
theorem parser_typing_sound (output : String) (m : List (String × JVal))
    (hm : parse_timekpr_output output = some m) :
    ∀ p ∈ m, ∃ line ∈ rustLines output, ∃ kv, splitOnce ": " line = some kv ∧
      p.1 = rustTrim kv.1 ∧ (rustTrim kv.2).data.isEmpty = false ∧
      claimTyping (rustTrim kv.2) p.2 := by
  intro p hp
  rcases parse_fold_sound (rustLines output) [] m hm p hp with
    h0 | ⟨line, hl, kv, hkv, h1, h2, h3⟩
  · cases h0
  · exact ⟨line, hl, kv, hkv, h1, h2, retypeValue_sound _ _ h3⟩

/-- Witness for C7: the binding produced by the output `A: 5` really is an
integer-typed entry arising from that line. -/
theorem parser_typing_sound_witness :
    ∃ line ∈ rustLines "A: 5", ∃ kv, splitOnce ": " line = some kv ∧
      (("A", JVal.num 5) : String × JVal).1 = rustTrim kv.1 ∧
      (rustTrim kv.2).data.isEmpty = false ∧
      claimTyping (rustTrim kv.2) (("A", JVal.num 5) : String × JVal).2 :=
  parser_typing_sound "A: 5" [("A", JVal.num 5)] rfl ("A", JVal.num 5)
    (List.mem_cons_self _ _)

lemma parseI64_isSome_of_tokenOk (t : String)
    (hd : t.data.all (fun c => c.isDigit) = true) (hok : tokenOk t = true) :
    (parseI64 t).isSome = true := by
  unfold tokenOk at hok
  rw [hd] at hok
  simp only [Bool.not_true, Bool.false_or, Bool.and_eq_true,
    Bool.not_eq_true', decide_eq_true_eq] at hok
  unfold parseI64
  rw [if_neg (by simp [hok.1]), if_pos hd, if_pos hok.2]
  rfl

lemma retypeItem_isSome (item : String) (hok : tokenOk item = true) :
    (retypeItem item).isSome = true := by
  unfold retypeItem
  by_cases hd : item.data.all (fun c => c.isDigit) = true
  · rw [if_pos hd]
    obtain ⟨n, hn⟩ := Option.isSome_iff_exists.mp
      (parseI64_isSome_of_tokenOk item hd hok)
    rw [hn]
    rfl
  · rw [if_neg hd]
    rfl

lemma mapM_retypeItem_isSome :
    ∀ (l : List String), (∀ t ∈ l, tokenOk t = true) →
      (l.mapM retypeItem).isSome = true := by
  intro l
  induction l with
  | nil =>
    intro _
    rfl
  | cons a t ih =>
    intro hall
    rw [List.mapM_cons]
    obtain ⟨b, hb⟩ := Option.isSome_iff_exists.mp
      (retypeItem_isSome a (hall a (List.mem_cons_self _ _)))
    rw [hb]
    obtain ⟨bs, hbs⟩ := Option.isSome_iff_exists.mp
      (ih (fun x hx => hall x (List.mem_cons_of_mem _ hx)))
    have hgoal : (t.mapM retypeItem >>= fun bs => pure (b :: bs)).isSome = true := by
      rw [hbs]
      rfl
    exact hgoal

lemma retypeValue_isSome_of (v : String)
    (hok : (if v.data.all (fun c => c.isDigit) then tokenOk v
       else if v.data.contains ';' then (rustSplit ";" v).all tokenOk
       else true) = true) : (retypeValue v).isSome = true := by
  unfold retypeValue
  by_cases hd : v.data.all (fun c => c.isDigit) = true
  · rw [if_pos hd] at hok ⊢
    obtain ⟨n, hn⟩ := Option.isSome_iff_exists.mp
      (parseI64_isSome_of_tokenOk v hd hok)
    rw [hn]
    rfl
  · rw [if_neg hd] at hok ⊢
    by_cases hc : v.data.contains ';' = true
    · rw [if_pos hc] at hok ⊢
      obtain ⟨ys, hys⟩ := Option.isSome_iff_exists.mp
        (mapM_retypeItem_isSome (rustSplit ";" v)
          (fun t ht => List.all_eq_true.mp hok t ht))
      rw [hys]
      rfl
    · rw [if_neg hc]
      by_cases htr : strToLower v = "true"
      · rw [if_pos htr]
        rfl
      · rw [if_neg htr]
        by_cases hfa : strToLower v = "false"
        · rw [if_pos hfa]
          rfl
        · rw [if_neg hfa]
          rfl

lemma parseLineStep_isSome (m : List (String × JVal)) (line : String)
    (hok : lineOk line = true) : (parseLineStep m line).isSome = true := by
  unfold parseLineStep
  unfold lineOk at hok
  cases hsp : splitOnce ": " line with
  | none => rfl
  | some kv =>
    rw [hsp] at hok
    have hok2 : ((rustTrim kv.2).data.isEmpty ||
        (if (rustTrim kv.2).data.all (fun c => c.isDigit) then
          tokenOk (rustTrim kv.2)
         else if (rustTrim kv.2).data.contains ';' then
          (rustSplit ";" (rustTrim kv.2)).all tokenOk
         else true)) = true := hok
    show (if (rustTrim kv.2).data.isEmpty then some m
      else match retypeValue (rustTrim kv.2) with
        | none => none
        | some jv => some (insertKV m (rustTrim kv.1) jv)).isSome = true
    by_cases he : (rustTrim kv.2).data.isEmpty = true
    · rw [if_pos he]
      rfl
    · rw [if_neg he]
      have hef : (rustTrim kv.2).data.isEmpty = false := by
        simpa using he
      rw [hef, Bool.false_or] at hok2
      obtain ⟨jv, hjv⟩ := Option.isSome_iff_exists.mp
        (retypeValue_isSome_of (rustTrim kv.2) hok2)
      rw [hjv]
      rfl

/-- C10 (amended): the parser returns a key/value map without panicking for
every input in which each all-digit token (a whole value, or one
`;`-separated item of a non-all-digit value) is non-empty and at most
`i64::MAX`; the unwrap's error branch is reachable only through an empty or
overflowing all-digit token (see the counterexample). -/
theorem parser_no_panic_when_tokens_ok (output : String)
    (h : (rustLines output).all lineOk = true) :
    (parse_timekpr_output output).isSome = true := by
  unfold parse_timekpr_output
  have main : ∀ (ls : List String) (m0 : List (String × JVal)),
      ls.all lineOk = true → ((ls.foldlM parseLineStep m0).isSome = true) := by
    intro ls
    induction ls with
    | nil =>
      intro m0 _
      rfl
    | cons l t ih =>
      intro m0 hall
      rw [List.all_cons, Bool.and_eq_true] at hall
      rw [List.foldlM_cons]
      obtain ⟨m1, hm1⟩ := Option.isSome_iff_exists.mp
        (parseLineStep_isSome m0 l hall.1)
      rw [hm1]
      exact ih m1 hall.2
  exact main (rustLines output) [] h

/-- Witness for C10: a two-line output with a list value and a numeric value
is parsed without panicking. -/
theorem parser_no_panic_when_tokens_ok_witness :
    ((rustLines "A: 1;2;x\nB: 42").all lineOk = true) ∧
    (parse_timekpr_output "A: 1;2;x\nB: 42").isSome = true :=
  ⟨rfl, parser_no_panic_when_tokens_ok "A: 1;2;x\nB: 42" rfl⟩
